import Mathlib

/-!
# Verification of the level/tile compiler (game-build-tools)

Shallow embedding of `src/game-build-tools/src/level/adjacency.rs` and
`src/game-build-tools/src/level/mod.rs`: the adjacency-rule catalog and its
matcher, the `Neighborhood7x7` window, the `TileSheet` id/position maps, the
`LevelLayer` algebra (`value_where`, `convolve`, `zip_with`,
`canonical_adjacency`, `autotile_with`) and the `LevelSpec::compile` pass.

Machine integers (`u32`, `usize`, `u8`) are modelled as `Nat` (no operation
here can overflow on the values involved: ids grow by one per allocation,
indices are bounded by grid sizes), `isize` offsets as `Int`. Rust panics and
`Result::Err` are modelled as `Option`/`Except` failures. `HashMap` and
`HashSet` are modelled as association lists / lists with lookup-and-contains
semantics (insertion conses in front, which has the same `lookup` behaviour
as `HashMap::insert` because every insertion site is guarded by a
`contains_key` test or shadows the old binding).
-/

/-- The fixed rule catalog `ADJACENCY_RULES` from `adjacency.rs`, 47 rules of
9 booleans each, in source order (row-major 3x3: top-left, top, top-right,
left, center, right, bottom-left, bottom, bottom-right). -/
def ADJACENCY_RULES : List (List Bool) := [
  [false, false, false, false, true, true, false, true, true],
  [false, true, true, false, true, true, false, true, true],
  [false, true, true, false, true, true, false, false, false],
  [false, true, true, true, true, true, true, true, true],
  [true, true, true, true, true, true, false, true, true],
  [false, false, false, true, true, true, true, true, true],
  [true, true, true, true, true, true, true, true, true],
  [true, true, true, true, true, true, false, false, false],
  [true, true, false, true, true, true, true, true, true],
  [true, true, true, true, true, true, true, true, false],
  [false, false, false, true, true, false, true, true, false],
  [true, true, false, true, true, false, true, true, false],
  [true, true, false, true, true, false, false, false, false],
  [false, false, false, false, true, false, false, false, false],
  [false, true, false, true, true, true, false, true, false],
  [false, false, false, false, true, true, false, true, false],
  [false, true, false, false, true, true, false, false, false],
  [false, false, false, false, true, false, false, true, false],
  [false, true, false, false, true, false, false, true, false],
  [false, true, false, false, true, false, false, false, false],
  [false, false, false, true, true, false, false, true, false],
  [false, true, false, true, true, false, false, false, false],
  [false, true, true, true, true, true, true, true, false],
  [true, true, false, true, true, true, false, true, true],
  [false, false, false, false, true, true, false, false, false],
  [false, false, false, true, true, true, false, true, true],
  [false, true, true, true, true, true, false, false, false],
  [false, true, false, false, true, true, false, true, true],
  [false, true, true, false, true, true, false, true, false],
  [false, false, false, true, true, true, false, false, false],
  [false, false, false, true, true, true, true, true, false],
  [true, true, false, true, true, true, false, false, false],
  [false, true, false, true, true, false, true, true, false],
  [true, true, false, true, true, false, false, true, false],
  [false, false, false, true, true, false, false, false, false],
  [false, true, true, true, true, true, false, true, true],
  [true, true, true, true, true, true, false, true, false],
  [false, true, false, false, true, true, false, true, false],
  [false, true, false, true, true, true, false, false, false],
  [true, true, false, true, true, true, true, true, false],
  [false, true, false, true, true, true, true, true, true],
  [false, false, false, true, true, true, false, true, false],
  [false, true, false, true, true, false, false, true, false],
  [false, true, false, true, true, true, false, true, true],
  [false, true, true, true, true, true, false, true, false],
  [false, true, false, true, true, true, true, true, false],
  [true, true, false, true, true, true, false, true, false]]

/-- Rust `rule_complexity`: `rule.iter().filter(|&&x| x).count()`, the number
of `true` cells of a raw rule. -/
def rule_complexity (rule : List Bool) : Nat :=
  rule.countP (fun x => x)

/-- The matching test of the loop body of `match_rule`:
`neighborhood.iter().zip(as_vec).all(|(&n, r)| n == r)` (pair the observed
neighborhood with the rule and require equality pointwise). -/
def matches_rule (neighborhood rule : List Bool) : Bool :=
  (neighborhood.zip rule).all fun p => p.1 == p.2

/-- The loop of `match_rule`: walk the remaining rules with the running rule
index `i`, the best complexity seen `maxc` (initially 0) and the best index
`best` (initially `None`); a rule that matches and whose complexity is
strictly greater than `maxc` becomes the new best match. -/
def match_rule_go (neighborhood : List Bool) :
    List (List Bool) → Nat → Nat → Option Nat → Option Nat
  | [], _, _, best => best
  | rule :: rest, i, maxc, best =>
    if matches_rule neighborhood rule then
      if rule_complexity rule > maxc then
        match_rule_go neighborhood rest (i + 1) (rule_complexity rule) (some i)
      else
        match_rule_go neighborhood rest (i + 1) maxc best
    else
      match_rule_go neighborhood rest (i + 1) maxc best

/-- The `match_rule` loop run over an arbitrary catalog (the spec treats the
catalog as an injected configuration value; `match_rule` itself is this loop
applied to `ADJACENCY_RULES`). -/
def match_rule_over (rules : List (List Bool)) (neighborhood : List Bool) :
    Option Nat :=
  match_rule_go neighborhood rules 0 0 none

/-- Rust `match_rule` from `adjacency.rs` (the function `mod.rs` calls as
`match_adjacency_rule`, the only matcher in the adjacency module): returns
the index of the matching rule with most complexity. -/
def match_rule (neighborhood : List Bool) : Option Nat :=
  match_rule_over ADJACENCY_RULES neighborhood

/-- Invariant of the `match_rule` loop state `(maxc, best)` after the prefix
`p` of the catalog has been scanned: if `best` is still `None` every matching
rule seen so far had complexity 0, and if `best = Some k` then `k` is a
matching index of complexity `maxc`, every matching index seen is of
complexity at most `maxc`, and every matching index before `k` is of strictly
smaller complexity. -/
def goInv (n : List Bool) (p : List (List Bool)) (maxc : Nat) :
    Option Nat → Prop
  | none => maxc = 0 ∧ ∀ j, j < p.length → matches_rule n (p.getD j []) = true →
      rule_complexity (p.getD j []) = 0
  | some k => k < p.length ∧ matches_rule n (p.getD k []) = true ∧
      rule_complexity (p.getD k []) = maxc ∧ 0 < maxc ∧
      (∀ j, j < p.length → matches_rule n (p.getD j []) = true →
        rule_complexity (p.getD j []) ≤ maxc) ∧
      (∀ j, j < k → matches_rule n (p.getD j []) = true →
        rule_complexity (p.getD j []) < maxc)

/-- What the finished `match_rule` loop guarantees over the whole catalog `l`:
`none` means every matching rule has complexity 0; `some k` means `k` matches
with positive complexity, no matching rule has greater complexity, and every
earlier matching rule has strictly smaller complexity (so on equal maximal
complexity the first match is kept). -/
def goFinal (n : List Bool) (l : List (List Bool)) : Option Nat → Prop
  | none => ∀ j, j < l.length → matches_rule n (l.getD j []) = true →
      rule_complexity (l.getD j []) = 0
  | some k => k < l.length ∧ matches_rule n (l.getD k []) = true ∧
      0 < rule_complexity (l.getD k []) ∧
      (∀ j, j < l.length → matches_rule n (l.getD j []) = true →
        rule_complexity (l.getD j []) ≤ rule_complexity (l.getD k [])) ∧
      (∀ j, j < k → matches_rule n (l.getD j []) = true →
        rule_complexity (l.getD j []) < rule_complexity (l.getD k []))

lemma getD_append_last (p : List (List Bool)) (r : List Bool) :
    (p ++ [r]).getD p.length [] = r := by
  rw [List.getD_append_right _ _ _ _ (le_refl _)]
  simp [List.getD]

lemma goInv_extend_miss {n : List Bool} {p : List (List Bool)} {maxc : Nat}
    {best : Option Nat} {r : List Bool} (hinv : goInv n p maxc best)
    (hm : matches_rule n r = false) : goInv n (p ++ [r]) maxc best := by
  cases best with
  | none =>
    refine ⟨hinv.1, fun j hj hmat => ?_⟩
    rcases Nat.lt_or_ge j p.length with hlt | hge
    · rw [List.getD_append _ _ _ _ hlt] at hmat ⊢
      exact hinv.2 j hlt hmat
    · have hj2 : j = p.length := by simp at hj; omega
      subst hj2
      rw [getD_append_last] at hmat
      simp [hm] at hmat
  | some k =>
    obtain ⟨hk, hmk, hck, hpos, hle, hlt⟩ := hinv
    refine ⟨by simp; omega, ?_, ?_, hpos, ?_, ?_⟩
    · rw [List.getD_append _ _ _ _ hk]; exact hmk
    · rw [List.getD_append _ _ _ _ hk]; exact hck
    · intro j hj hmat
      rcases Nat.lt_or_ge j p.length with hlt2 | hge
      · rw [List.getD_append _ _ _ _ hlt2] at hmat ⊢
        exact hle j hlt2 hmat
      · have hj2 : j = p.length := by simp at hj; omega
        subst hj2
        rw [getD_append_last] at hmat
        simp [hm] at hmat
    · intro j hj hmat
      have hjp : j < p.length := Nat.lt_trans hj hk
      rw [List.getD_append _ _ _ _ hjp] at hmat ⊢
      exact hlt j hj hmat

lemma goInv_extend_low {n : List Bool} {p : List (List Bool)} {maxc : Nat}
    {best : Option Nat} {r : List Bool} (hinv : goInv n p maxc best)
    (hc : rule_complexity r ≤ maxc) : goInv n (p ++ [r]) maxc best := by
  cases best with
  | none =>
    refine ⟨hinv.1, fun j hj hmat => ?_⟩
    rcases Nat.lt_or_ge j p.length with hlt | hge
    · rw [List.getD_append _ _ _ _ hlt] at hmat ⊢
      exact hinv.2 j hlt hmat
    · have hj2 : j = p.length := by simp at hj; omega
      subst hj2
      rw [getD_append_last]
      have h0 := hinv.1
      omega
  | some k =>
    obtain ⟨hk, hmk, hck, hpos, hle, hlt⟩ := hinv
    refine ⟨by simp; omega, ?_, ?_, hpos, ?_, ?_⟩
    · rw [List.getD_append _ _ _ _ hk]; exact hmk
    · rw [List.getD_append _ _ _ _ hk]; exact hck
    · intro j hj hmat
      rcases Nat.lt_or_ge j p.length with hlt2 | hge
      · rw [List.getD_append _ _ _ _ hlt2] at hmat ⊢
        exact hle j hlt2 hmat
      · have hj2 : j = p.length := by simp at hj; omega
        subst hj2
        rw [getD_append_last]
        exact hc
    · intro j hj hmat
      have hjp : j < p.length := Nat.lt_trans hj hk
      rw [List.getD_append _ _ _ _ hjp] at hmat ⊢
      exact hlt j hj hmat

lemma goInv_extend_new {n : List Bool} {p : List (List Bool)} {maxc : Nat}
    {best : Option Nat} {r : List Bool} (hinv : goInv n p maxc best)
    (hm : matches_rule n r = true) (hc : maxc < rule_complexity r) :
    goInv n (p ++ [r]) (rule_complexity r) (some p.length) := by
  have hlast := getD_append_last p r
  have hbound : ∀ j, j < p.length → matches_rule n (p.getD j []) = true →
      rule_complexity (p.getD j []) < rule_complexity r := by
    intro j hj hmat
    cases best with
    | none =>
      have := hinv.2 j hj hmat
      omega
    | some k =>
      have := hinv.2.2.2.2.1 j hj hmat
      omega
  refine ⟨by simp, ?_, ?_, by omega, ?_, ?_⟩
  · rw [hlast]; exact hm
  · rw [hlast]
  · intro j hj hmat
    rcases Nat.lt_or_ge j p.length with hlt2 | hge
    · rw [List.getD_append _ _ _ _ hlt2] at hmat ⊢
      exact Nat.le_of_lt (hbound j hlt2 hmat)
    · have hj2 : j = p.length := by simp at hj; omega
      subst hj2
      rw [hlast]
  · intro j hj hmat
    rw [List.getD_append _ _ _ _ hj] at hmat ⊢
    exact hbound j hj hmat

lemma match_rule_go_spec (n : List Bool) :
    ∀ (rules p : List (List Bool)) (maxc : Nat) (best : Option Nat),
      goInv n p maxc best →
      goFinal n (p ++ rules) (match_rule_go n rules p.length maxc best) := by
  intro rules
  induction rules with
  | nil =>
    intro p maxc best hinv
    simp only [match_rule_go, List.append_nil]
    cases best with
    | none => exact hinv.2
    | some k =>
      obtain ⟨hk, hmk, hck, hpos, hle, hlt⟩ := hinv
      exact ⟨hk, hmk, by omega, fun j hj hm => by have := hle j hj hm; omega,
        fun j hj hm => by have := hlt j hj hm; omega⟩
  | cons r rest ih =>
    intro p maxc best hinv
    have happ : p ++ r :: rest = (p ++ [r]) ++ rest := by simp
    have hlen : p.length + 1 = (p ++ [r]).length := by simp
    by_cases hm : matches_rule n r = true
    · by_cases hc : maxc < rule_complexity r
      · have step : match_rule_go n (r :: rest) p.length maxc best =
            match_rule_go n rest (p.length + 1) (rule_complexity r)
              (some p.length) := by
          simp only [match_rule_go, hm, if_true, gt_iff_lt, hc, if_pos]
        rw [step, happ, hlen]
        exact ih (p ++ [r]) (rule_complexity r) (some p.length)
          (goInv_extend_new hinv hm hc)
      · have step : match_rule_go n (r :: rest) p.length maxc best =
            match_rule_go n rest (p.length + 1) maxc best := by
          simp only [match_rule_go, hm, if_true, gt_iff_lt, hc, if_neg,
            not_false_iff]
        rw [step, happ, hlen]
        exact ih (p ++ [r]) maxc best (goInv_extend_low hinv (by omega))
    · have hm2 : matches_rule n r = false := by
        cases h2 : matches_rule n r
        · rfl
        · exact absurd h2 hm
      have step : match_rule_go n (r :: rest) p.length maxc best =
          match_rule_go n rest (p.length + 1) maxc best := by
        simp only [match_rule_go, hm2, Bool.false_eq_true, if_false]
      rw [step, happ, hlen]
      exact ih (p ++ [r]) maxc best (goInv_extend_miss hinv hm2)

/-- The finished-loop guarantee, stated for `match_rule_over`. -/
lemma match_rule_over_spec (rules : List (List Bool)) (n : List Bool) :
    goFinal n rules (match_rule_over rules n) := by
  have h := match_rule_go_spec n rules [] 0 none ⟨rfl, by intro j hj; simp at hj⟩
  simpa [match_rule_over] using h

/-- For lists of equal length the zip-based test of the `match_rule` loop is
exact list equality. -/
lemma matches_rule_iff_eq : ∀ (n r : List Bool), n.length = r.length →
    (matches_rule n r = true ↔ n = r)
  | [], [], _ => by simp [matches_rule]
  | [], _ :: _, h => by simp at h
  | _ :: _, [], h => by simp at h
  | a :: n, b :: r, h => by
    have ih := matches_rule_iff_eq n r (by simpa using h)
    simp only [matches_rule, List.zip_cons_cons, List.all_cons, Bool.and_eq_true,
      beq_iff_eq, List.cons.injEq]
    simp only [matches_rule] at ih
    rw [ih]

lemma adjacency_rules_length9 : ∀ r ∈ ADJACENCY_RULES, r.length = 9 := by decide

lemma adjacency_rules_pos_complexity :
    ∀ r ∈ ADJACENCY_RULES, 0 < rule_complexity r := by decide

lemma adjacency_rules_nodup : ADJACENCY_RULES.Nodup := by decide

/-- C1 (amended): the `match_rule` loop keeps, among the matching rules, the
one of maximal complexity that occurs FIRST in catalog order (its comparison
`complexity > max_complexity` is strict, so a later match of equal complexity
never replaces the current best); moreover the built-in catalog has no
duplicate rules, so under the loop's exact-equality matching no neighborhood
ever has more than one matching rule and the tie-break is unreachable there. -/
theorem match_rule_first_max_wins :
    ADJACENCY_RULES.Nodup ∧
    ∀ (rules : List (List Bool)) (n : List Bool) (k : Nat),
      match_rule_over rules n = some k →
      k < rules.length ∧ matches_rule n (rules.getD k []) = true ∧
      (∀ j, j < rules.length → matches_rule n (rules.getD j []) = true →
        rule_complexity (rules.getD j []) ≤ rule_complexity (rules.getD k [])) ∧
      (∀ j, j < k → matches_rule n (rules.getD j []) = true →
        rule_complexity (rules.getD j []) < rule_complexity (rules.getD k [])) := by
  refine ⟨adjacency_rules_nodup, ?_⟩
  intro rules n k hres
  have hspec := match_rule_over_spec rules n
  rw [hres] at hspec
  obtain ⟨hk, hmk, _, hle, hlt⟩ := hspec
  exact ⟨hk, hmk, hle, hlt⟩

/-- Witness: on the all-true neighborhood the loop returns index 6 (the
all-present rule) and the first-maximal-match guarantees hold there. -/
theorem match_rule_first_max_wins_witness :
    ADJACENCY_RULES.Nodup ∧
    (6 < ADJACENCY_RULES.length ∧
      matches_rule (List.replicate 9 true) (ADJACENCY_RULES.getD 6 []) = true ∧
      (∀ j, j < ADJACENCY_RULES.length →
        matches_rule (List.replicate 9 true) (ADJACENCY_RULES.getD j []) = true →
        rule_complexity (ADJACENCY_RULES.getD j []) ≤
          rule_complexity (ADJACENCY_RULES.getD 6 [])) ∧
      (∀ j, j < 6 →
        matches_rule (List.replicate 9 true) (ADJACENCY_RULES.getD j []) = true →
        rule_complexity (ADJACENCY_RULES.getD j []) <
          rule_complexity (ADJACENCY_RULES.getD 6 []))) :=
  ⟨match_rule_first_max_wins.1,
    match_rule_first_max_wins.2 ADJACENCY_RULES (List.replicate 9 true) 6
      (by decide)⟩

/-- Counterexample to C1 as stated: the spec's own regression scenario — a
catalog of two rules of equal complexity, in order A before B, both matching
the observed neighborhood — must return B (the later index 1) per the claim,
but the loop returns A (index 0): the first, not the last, maximal-complexity
match wins. (With the built-in catalog the situation is unreachable: matching
is exact equality and no two of its rules are equal, so this synthetic
two-rule catalog from the spec's regression test exhibits the direction.) -/
theorem match_rule_tiebreak_counterexample :
    matches_rule [false, true, false, false, true, false, false, false, false]
      ([[false, true, false, false, true, false, false, false, false],
        [false, true, false, false, true, false, false, false, false]].getD 0 []) = true ∧
    matches_rule [false, true, false, false, true, false, false, false, false]
      ([[false, true, false, false, true, false, false, false, false],
        [false, true, false, false, true, false, false, false, false]].getD 1 []) = true ∧
    rule_complexity
      ([[false, true, false, false, true, false, false, false, false],
        [false, true, false, false, true, false, false, false, false]].getD 0 []) =
    rule_complexity
      ([[false, true, false, false, true, false, false, false, false],
        [false, true, false, false, true, false, false, false, false]].getD 1 []) ∧
    match_rule_over
      [[false, true, false, false, true, false, false, false, false],
       [false, true, false, false, true, false, false, false, false]]
      [false, true, false, false, true, false, false, false, false] = some 0 ∧
    ¬ (match_rule_over
      [[false, true, false, false, true, false, false, false, false],
       [false, true, false, false, true, false, false, false, false]]
      [false, true, false, false, true, false, false, false, false] = some 1) := by
  decide

/-- Modelled from the spec (wording of claim C2): the fixed-up form of a raw
9-cell rule, promoting a corner cell to wildcard (`none`) whenever both of
its adjacent orthogonal edge cells are absent; every other cell stays fixed
(`some`). Row-major order: 0 TL, 1 top, 2 TR, 3 left, 4 center, 5 right,
6 BL, 7 bottom, 8 BR. -/
def spec_fixed_up (r : List Bool) : List (Option Bool) :=
  [if !(r.getD 1 false) && !(r.getD 3 false) then none else some (r.getD 0 false),
   some (r.getD 1 false),
   if !(r.getD 1 false) && !(r.getD 5 false) then none else some (r.getD 2 false),
   some (r.getD 3 false),
   some (r.getD 4 false),
   some (r.getD 5 false),
   if !(r.getD 7 false) && !(r.getD 3 false) then none else some (r.getD 6 false),
   some (r.getD 7 false),
   if !(r.getD 7 false) && !(r.getD 5 false) then none else some (r.getD 8 false)]

/-- Modelled from the spec: wildcard-aware equality of a rule's fixed-up form
against an observed neighborhood — a wildcard cell matches either boolean, a
fixed cell must equal the observed boolean exactly. -/
def spec_wildcard_matches (r n : List Bool) : Bool :=
  ((spec_fixed_up r).zip n).all fun p =>
    match p.1 with
    | none => true
    | some b => b == p.2

/-- Counterexample to C2 as stated: the neighborhood that differs from
catalog rule 0 only in its top-left corner. Rule 0 has top and left edges
absent, so per the claim its top-left corner is a wildcard and the rule
wildcard-matches this neighborhood, which should make `match_rule` return
`some` index; the actual matcher compares raw rules for exact equality and
returns `none`. -/
theorem match_rule_wildcard_counterexample :
    spec_wildcard_matches (ADJACENCY_RULES.getD 0 [])
      [true, false, false, false, true, true, false, true, true] = true ∧
    match_rule [true, false, false, false, true, true, false, true, true] =
      none := by
  decide

/-- C2 (amended): `match_rule` compares the observed neighborhood with each
raw catalog rule under exact cell-wise equality (no wildcard promotion), and
it returns `some` index exactly when some catalog rule equals the observed
9-cell neighborhood. -/
theorem match_rule_exact_equality (n : List Bool) (h9 : n.length = 9) :
    (match_rule n).isSome = true ↔ n ∈ ADJACENCY_RULES := by
  have hspec : goFinal n ADJACENCY_RULES (match_rule n) :=
    match_rule_over_spec ADJACENCY_RULES n
  constructor
  · intro hs
    cases hres : match_rule n with
    | none => rw [hres] at hs; simp at hs
    | some k =>
      rw [hres] at hspec
      obtain ⟨hk, hmk, _, _, _⟩ := hspec
      have hmem : ADJACENCY_RULES.getD k [] ∈ ADJACENCY_RULES := by
        rw [List.getD_eq_getElem _ _ hk]
        exact List.getElem_mem hk
      have hlen : n.length = (ADJACENCY_RULES.getD k []).length := by
        rw [adjacency_rules_length9 _ hmem, h9]
      have heq := (matches_rule_iff_eq n _ hlen).mp hmk
      rw [heq]
      exact hmem
  · intro hmem
    cases hres : match_rule n with
    | some k => simp
    | none =>
      rw [hres] at hspec
      obtain ⟨i, hi, hgi⟩ := List.getElem_of_mem hmem
      have hm : matches_rule n (ADJACENCY_RULES.getD i []) = true := by
        rw [List.getD_eq_getElem _ _ hi, hgi]
        exact (matches_rule_iff_eq n n rfl).mpr rfl
      have h0 := hspec i hi hm
      have hmemi : ADJACENCY_RULES.getD i [] ∈ ADJACENCY_RULES := by
        rw [List.getD_eq_getElem _ _ hi]
        exact List.getElem_mem hi
      have hpos := adjacency_rules_pos_complexity _ hmemi
      omega

/-- Witness: the all-true neighborhood is in the catalog and `match_rule`
finds it. -/
theorem match_rule_exact_equality_witness :
    (List.replicate 9 true).length = 9 ∧
    ((match_rule (List.replicate 9 true)).isSome = true ↔
      List.replicate 9 true ∈ ADJACENCY_RULES) :=
  ⟨by decide, match_rule_exact_equality (List.replicate 9 true) (by decide)⟩

/-- Rust `Neighborhood7x7`: a 49-slot array of optional values indexed by
`(dy + 3) * 7 + (dx + 3)`, modelled as a function from the flat index (the
value of the `usize` cast; every access computes it from in-range offsets, so
the `Int`-valued index coincides with the machine index). -/
structure Neighborhood7x7 where
  data : Int → Option Nat

/-- The flat index `((dy + 3) * 7 + (dx + 3))` used by `get`/`set`. -/
def nbIdx (dx dy : Int) : Int :=
  (dy + 3) * 7 + (dx + 3)

/-- Rust `Neighborhood7x7::get`: `None` when an offset is outside
`[-3, 3]`, otherwise the stored slot. -/
def Neighborhood7x7.get (nb : Neighborhood7x7) (dx dy : Int) : Option Nat :=
  if -3 ≤ dx ∧ dx ≤ 3 ∧ -3 ≤ dy ∧ dy ≤ 3 then nb.data (nbIdx dx dy) else none

/-- Rust `Neighborhood7x7::set`: silently ignored when an offset is outside
`[-3, 3]`, otherwise updates the slot. -/
def Neighborhood7x7.set (nb : Neighborhood7x7) (dx dy : Int)
    (value : Option Nat) : Neighborhood7x7 :=
  if -3 ≤ dx ∧ dx ≤ 3 ∧ -3 ≤ dy ∧ dy ≤ 3 then
    ⟨fun i => if i = nbIdx dx dy then value else nb.data i⟩
  else nb

/-- Rust `Neighborhood7x7::center`: `get(0, 0)`. -/
def Neighborhood7x7.center (nb : Neighborhood7x7) : Option Nat :=
  nb.get 0 0

/-- Rust `Neighborhood7x7::default`: all 49 slots `None`. -/
def Neighborhood7x7.empty : Neighborhood7x7 :=
  ⟨fun _ => none⟩

/-- Rust `LevelLayer`: an `Array2<u32>` of shape `(height, width)` (row
`y`, column `x`), modelled as its dimensions and the cell contents
`cell y x`; cells outside the grid are never read by any modelled
operation. -/
structure LevelLayer where
  width : Nat
  height : Nat
  cell : Nat → Nat → Nat

/-- Rust `LevelLayer::new`: all cells 0. -/
def LevelLayer.new (width height : Nat) : LevelLayer :=
  ⟨width, height, fun _ _ => 0⟩

/-- One in-place store `layer.data[[y, x]] = v`. -/
def LevelLayer.setCell (layer : LevelLayer) (y x v : Nat) : LevelLayer :=
  { layer with cell := fun y2 x2 => if y2 = y ∧ x2 = x then v else layer.cell y2 x2 }

/-- Rust `LevelLayer::value_where`: a fresh layer holding `value` where the
predicate accepts the old cell and 0 elsewhere. -/
def LevelLayer.value_where (layer : LevelLayer) (predicate : Nat → Bool)
    (value : Nat) : LevelLayer :=
  ⟨layer.width, layer.height,
    fun y x => if predicate (layer.cell y x) then value else 0⟩

/-- The `(dy, dx)` offset pairs of the window-filling loop of
`LevelLayer::convolve`, in loop order (`dy` outer, `dx` inner, each running
over `-3..=3`). -/
def offsets7 : List (Int × Int) :=
  (List.range 7).flatMap fun a =>
    (List.range 7).map fun b => ((a : Int) - 3, (b : Int) - 3)

/-- The loop body of `LevelLayer::convolve`: store the neighbor value when
the absolute position is inside the layer, otherwise leave the slot as is. -/
def populateStep (layer : LevelLayer) (y x : Nat) (nb : Neighborhood7x7)
    (p : Int × Int) : Neighborhood7x7 :=
  if 0 ≤ (y : Int) + p.1 ∧ (y : Int) + p.1 < (layer.height : Int) ∧
      0 ≤ (x : Int) + p.2 ∧ (x : Int) + p.2 < (layer.width : Int) then
    nb.set p.2 p.1 (some (layer.cell ((y : Int) + p.1).toNat ((x : Int) + p.2).toNat))
  else nb

/-- The 7x7 window that `LevelLayer::convolve` builds around `(y, x)`:
start from the all-`None` default and run the filling loop. -/
def populateNeighborhood (layer : LevelLayer) (y x : Nat) : Neighborhood7x7 :=
  offsets7.foldl (populateStep layer y x) Neighborhood7x7.empty

/-- Rust `LevelLayer::convolve`: each output cell is `func` applied to the
populated window centered at that cell. -/
def LevelLayer.convolve (layer : LevelLayer)
    (func : Neighborhood7x7 → Nat) : LevelLayer :=
  ⟨layer.width, layer.height, fun y x => func (populateNeighborhood layer y x)⟩

/-- Rust `LevelLayer::zip_with`: `assert_eq!` on the shapes (a panic is
modelled as `none`), then the cell-wise combination. -/
def LevelLayer.zip_with (layer other : LevelLayer)
    (func : Nat → Nat → Nat) : Option LevelLayer :=
  if layer.height = other.height ∧ layer.width = other.width then
    some ⟨layer.width, layer.height,
      fun y x => func (layer.cell y x) (other.cell y x)⟩
  else none

/-- Rust `LevelLayer::canonical_adjacency`: convolve with the closure that
reads the eight neighbors and the center as booleans (`value == 1`, with
`pad_with_adjacent` substituted for absent neighbors), matches the rule
catalog (`match_adjacency_rule` in `mod.rs`, the adjacency module's matcher)
and writes `index + 1` on a match and 0 otherwise. -/
def LevelLayer.canonical_adjacency (layer : LevelLayer)
    (pad_with_adjacent : Bool) : LevelLayer :=
  layer.convolve fun neighborhood =>
    let get_at : Int → Int → Bool := fun dx dy =>
      match neighborhood.get dx dy with
      | some value => value == 1
      | none => pad_with_adjacent
    let neighborhood_adjacency :=
      [get_at (-1) (-1), get_at 0 (-1), get_at 1 (-1),
       get_at (-1) 0, get_at 0 0, get_at 1 0,
       get_at (-1) 1, get_at 0 1, get_at 1 1]
    match match_rule neighborhood_adjacency with
    | some rule_index => rule_index + 1
    | none => 0

/-- Rust `AbyssPolicy`. -/
inductive AbyssPolicy where
  | PadWithSelf
  | PadWithAir

/-- Rust `LevelLayer::autotile_with`: threshold to a 0/1 mask, then run the
canonical adjacency pass with the abyss policy as padding boolean. -/
def LevelLayer.autotile_with (layer : LevelLayer) (value : Nat)
    (abyss : AbyssPolicy) : LevelLayer :=
  let mask := layer.value_where (fun tile_id => tile_id == value) 1
  mask.canonical_adjacency
    (match abyss with
     | AbyssPolicy.PadWithSelf => true
     | AbyssPolicy.PadWithAir => false)

/-- The observed boolean at relative offset `(dx, dy)` of a cell, as the
claims describe it: an in-bounds neighbor contributes `value == 1`, an
out-of-bounds neighbor contributes the padding boolean. -/
def obsAt (layer : LevelLayer) (pad : Bool) (y x : Nat) (dx dy : Int) : Bool :=
  if 0 ≤ (y : Int) + dy ∧ (y : Int) + dy < (layer.height : Int) ∧
      0 ≤ (x : Int) + dx ∧ (x : Int) + dx < (layer.width : Int) then
    layer.cell ((y : Int) + dy).toNat ((x : Int) + dx).toNat == 1
  else pad

/-- The 3x3 observed boolean neighborhood of a cell in row-major order, as
the claims describe it. -/
def observedNeighborhood (layer : LevelLayer) (pad : Bool) (y x : Nat) :
    List Bool :=
  [obsAt layer pad y x (-1) (-1), obsAt layer pad y x 0 (-1),
   obsAt layer pad y x 1 (-1), obsAt layer pad y x (-1) 0,
   obsAt layer pad y x 0 0, obsAt layer pad y x 1 0,
   obsAt layer pad y x (-1) 1, obsAt layer pad y x 0 1,
   obsAt layer pad y x 1 1]

lemma offsets7_range : ∀ p ∈ offsets7,
    -3 ≤ p.1 ∧ p.1 ≤ 3 ∧ -3 ≤ p.2 ∧ p.2 ≤ 3 := by decide

lemma offsets7_nodup : offsets7.Nodup := by decide

lemma mem_offsets7 {dy dx : Int} (hdy : -3 ≤ dy ∧ dy ≤ 3)
    (hdx : -3 ≤ dx ∧ dx ≤ 3) : (dy, dx) ∈ offsets7 := by
  obtain ⟨h1, h2⟩ := hdy
  obtain ⟨h3, h4⟩ := hdx
  interval_cases dy <;> interval_cases dx <;> decide

lemma nbIdx_inj {dx dy a b : Int} (hdx : -3 ≤ dx ∧ dx ≤ 3)
    (hdy : -3 ≤ dy ∧ dy ≤ 3) (ha : -3 ≤ a ∧ a ≤ 3) (hb : -3 ≤ b ∧ b ≤ 3)
    (h : nbIdx dx dy = nbIdx a b) : dx = a ∧ dy = b := by
  simp only [nbIdx] at h
  omega

lemma foldl_populateStep_data (layer : LevelLayer) (y x : Nat) (dx dy : Int)
    (hdx : -3 ≤ dx ∧ dx ≤ 3) (hdy : -3 ≤ dy ∧ dy ≤ 3) :
    ∀ (ps : List (Int × Int)),
      (∀ p ∈ ps, -3 ≤ p.1 ∧ p.1 ≤ 3 ∧ -3 ≤ p.2 ∧ p.2 ≤ 3) → ps.Nodup →
      ∀ nb : Neighborhood7x7,
      (ps.foldl (populateStep layer y x) nb).data (nbIdx dx dy) =
        if (dy, dx) ∈ ps ∧ (0 ≤ (y : Int) + dy ∧ (y : Int) + dy < (layer.height : Int) ∧
            0 ≤ (x : Int) + dx ∧ (x : Int) + dx < (layer.width : Int)) then
          some (layer.cell ((y : Int) + dy).toNat ((x : Int) + dx).toNat)
        else nb.data (nbIdx dx dy) := by
  intro ps
  induction ps with
  | nil =>
    intro _ _ nb
    simp
  | cons p rest ih =>
    intro hrange hnodup nb
    have hprange := hrange p (by simp)
    have hrestrange : ∀ q ∈ rest, -3 ≤ q.1 ∧ q.1 ≤ 3 ∧ -3 ≤ q.2 ∧ q.2 ≤ 3 :=
      fun q hq => hrange q (by simp [hq])
    have hrestnodup : rest.Nodup := (List.nodup_cons.mp hnodup).2
    have hpnotin : p ∉ rest := (List.nodup_cons.mp hnodup).1
    rw [List.foldl_cons]
    rw [ih hrestrange hrestnodup]
    by_cases hp : p = (dy, dx)
    · subst hp
      have hnotmem : (dy, dx) ∉ rest := hpnotin
      by_cases hb : 0 ≤ (y : Int) + dy ∧ (y : Int) + dy < (layer.height : Int) ∧
          0 ≤ (x : Int) + dx ∧ (x : Int) + dx < (layer.width : Int)
      · have hstep : populateStep layer y x nb (dy, dx) =
            nb.set dx dy (some (layer.cell ((y : Int) + dy).toNat
              ((x : Int) + dx).toNat)) := by
          simp only [populateStep]
          rw [if_pos hb]
        rw [if_neg (by simp [hnotmem]), hstep]
        simp only [Neighborhood7x7.set]
        rw [if_pos ⟨hdx.1, hdx.2, hdy.1, hdy.2⟩]
        simp [hb]
      · have hstep : populateStep layer y x nb (dy, dx) = nb := by
          simp only [populateStep]
          rw [if_neg hb]
        have hneg2 : ¬((dy, dx) ∈ (dy, dx) :: rest ∧ (0 ≤ (y : Int) + dy ∧
            (y : Int) + dy < (layer.height : Int) ∧ 0 ≤ (x : Int) + dx ∧
            (x : Int) + dx < (layer.width : Int))) := fun hc => hb hc.2
        rw [if_neg (by simp [hnotmem]), hstep, if_neg hneg2]
    · have hdata : (populateStep layer y x nb p).data (nbIdx dx dy) =
          nb.data (nbIdx dx dy) := by
        simp only [populateStep]
        by_cases hb : 0 ≤ (y : Int) + p.1 ∧ (y : Int) + p.1 < (layer.height : Int) ∧
            0 ≤ (x : Int) + p.2 ∧ (x : Int) + p.2 < (layer.width : Int)
        · rw [if_pos hb]
          simp only [Neighborhood7x7.set]
          rw [if_pos ⟨hprange.2.2.1, hprange.2.2.2, hprange.1, hprange.2.1⟩]
          simp only []
          rw [if_neg]
          intro heq
          obtain ⟨h1, h2⟩ := nbIdx_inj hdx hdy ⟨hprange.2.2.1, hprange.2.2.2⟩
            ⟨hprange.1, hprange.2.1⟩ heq
          exact hp (by rw [h2, h1])
        · rw [if_neg hb]
      rw [hdata]
      have hne : (dy, dx) ≠ p := fun h => hp h.symm
      have hiff : ((dy, dx) ∈ rest ∧ (0 ≤ (y : Int) + dy ∧
          (y : Int) + dy < (layer.height : Int) ∧ 0 ≤ (x : Int) + dx ∧
          (x : Int) + dx < (layer.width : Int))) ↔
          ((dy, dx) ∈ p :: rest ∧ (0 ≤ (y : Int) + dy ∧
          (y : Int) + dy < (layer.height : Int) ∧ 0 ≤ (x : Int) + dx ∧
          (x : Int) + dx < (layer.width : Int))) := by
        constructor
        · exact fun hc => ⟨List.mem_cons_of_mem _ hc.1, hc.2⟩
        · intro hc
          rcases List.mem_cons.mp hc.1 with h | h
          · exact absurd h hne
          · exact ⟨h, hc.2⟩
      rw [if_congr hiff rfl rfl]

/-- What the populated window of `convolve` holds at any in-window offset:
the layer value at the absolute position when it is inside the layer, and
`None` otherwise. -/
lemma populateNeighborhood_get (layer : LevelLayer) (y x : Nat) (dx dy : Int)
    (hdx : -3 ≤ dx ∧ dx ≤ 3) (hdy : -3 ≤ dy ∧ dy ≤ 3) :
    (populateNeighborhood layer y x).get dx dy =
      if 0 ≤ (y : Int) + dy ∧ (y : Int) + dy < (layer.height : Int) ∧
          0 ≤ (x : Int) + dx ∧ (x : Int) + dx < (layer.width : Int) then
        some (layer.cell ((y : Int) + dy).toNat ((x : Int) + dx).toNat)
      else none := by
  simp only [populateNeighborhood, Neighborhood7x7.get]
  rw [if_pos ⟨hdx.1, hdx.2, hdy.1, hdy.2⟩]
  rw [foldl_populateStep_data layer y x dx dy hdx hdy offsets7 offsets7_range
    offsets7_nodup Neighborhood7x7.empty]
  by_cases hb : 0 ≤ (y : Int) + dy ∧ (y : Int) + dy < (layer.height : Int) ∧
      0 ≤ (x : Int) + dx ∧ (x : Int) + dx < (layer.width : Int)
  · rw [if_pos ⟨mem_offsets7 hdy hdx, hb⟩, if_pos hb]
  · have hneg : ¬((dy, dx) ∈ offsets7 ∧ (0 ≤ (y : Int) + dy ∧
        (y : Int) + dy < (layer.height : Int) ∧ 0 ≤ (x : Int) + dx ∧
        (x : Int) + dx < (layer.width : Int))) := fun hc => hb hc.2
    rw [if_neg hneg, if_neg hb]
    simp [Neighborhood7x7.empty]

lemma populate_get_bool (layer : LevelLayer) (pad : Bool) (y x : Nat)
    (dx dy : Int) (hdx : -3 ≤ dx ∧ dx ≤ 3) (hdy : -3 ≤ dy ∧ dy ≤ 3) :
    (match (populateNeighborhood layer y x).get dx dy with
      | some value => value == 1
      | none => pad) = obsAt layer pad y x dx dy := by
  rw [populateNeighborhood_get layer y x dx dy hdx hdy]
  unfold obsAt
  by_cases hb : 0 ≤ (y : Int) + dy ∧ (y : Int) + dy < (layer.height : Int) ∧
      0 ≤ (x : Int) + dx ∧ (x : Int) + dx < (layer.width : Int)
  · rw [if_pos hb, if_pos hb]
  · rw [if_neg hb, if_neg hb]

/-- The cell formula of `canonical_adjacency`: the matcher is run on the
observed 3x3 boolean neighborhood and the output cell receives the matched
index plus one, or 0 when no rule matches. -/
lemma canonical_adjacency_cell (layer : LevelLayer) (pad : Bool) (y x : Nat) :
    (layer.canonical_adjacency pad).cell y x =
      match match_rule (observedNeighborhood layer pad y x) with
      | some rule_index => rule_index + 1
      | none => 0 := by
  simp only [LevelLayer.canonical_adjacency, LevelLayer.convolve,
    observedNeighborhood]
  rw [populate_get_bool layer pad y x (-1) (-1) (by omega) (by omega),
    populate_get_bool layer pad y x 0 (-1) (by omega) (by omega),
    populate_get_bool layer pad y x 1 (-1) (by omega) (by omega),
    populate_get_bool layer pad y x (-1) 0 (by omega) (by omega),
    populate_get_bool layer pad y x 0 0 (by omega) (by omega),
    populate_get_bool layer pad y x 1 0 (by omega) (by omega),
    populate_get_bool layer pad y x (-1) 1 (by omega) (by omega),
    populate_get_bool layer pad y x 0 1 (by omega) (by omega),
    populate_get_bool layer pad y x 1 1 (by omega) (by omega)]

/-- C4: at every in-bounds cell, `canonical_adjacency` computes the 3x3
observed boolean pattern (an in-bounds neighbor is true iff its value equals
1, an out-of-bounds neighbor is taken to be `pad_with_adjacent`), runs the
matcher on it, and writes matched-index + 1, or 0 when no rule matches. -/
theorem canonical_adjacency_matches_observed (layer : LevelLayer) (pad : Bool)
    (y x : Nat) (hy : y < layer.height) (hx : x < layer.width) :
    (layer.canonical_adjacency pad).cell y x =
      match match_rule (observedNeighborhood layer pad y x) with
      | some rule_index => rule_index + 1
      | none => 0 :=
  canonical_adjacency_cell layer pad y x

/-- Witness: a concrete 1x1 layer holding 1, with self-padding. -/
theorem canonical_adjacency_matches_observed_witness :
    0 < (⟨1, 1, fun _ _ => 1⟩ : LevelLayer).height ∧
    0 < (⟨1, 1, fun _ _ => 1⟩ : LevelLayer).width ∧
    ((⟨1, 1, fun _ _ => 1⟩ : LevelLayer).canonical_adjacency true).cell 0 0 =
      match match_rule (observedNeighborhood ⟨1, 1, fun _ _ => 1⟩ true 0 0) with
      | some rule_index => rule_index + 1
      | none => 0 :=
  ⟨by decide, by decide,
    canonical_adjacency_matches_observed ⟨1, 1, fun _ _ => 1⟩ true 0 0
      (by decide) (by decide)⟩

/-- Counterexample to C5 as stated: the catalog contains no all-absent rule,
`match_rule` on the all-false neighborhood returns `none` (not `some` index),
and `canonical_adjacency` writes 0 (not a nonzero tile id) at a cell whose
observed neighborhood is all-false. -/
theorem all_false_neighborhood_counterexample :
    List.replicate 9 false ∉ ADJACENCY_RULES ∧
    match_rule (List.replicate 9 false) = none ∧
    ((LevelLayer.new 2 2).canonical_adjacency false).cell 0 0 = 0 := by
  refine ⟨by decide, by decide, by decide⟩

/-- C5 (amended): the all-false 3x3 neighborhood matches no catalog rule
(there is no all-absent rule): `match_rule` on nine `false`s returns `none`,
and `canonical_adjacency` therefore writes 0 at every cell whose observed
neighborhood is all-false. -/
theorem all_false_neighborhood_no_match :
    match_rule (List.replicate 9 false) = none ∧
    ∀ (layer : LevelLayer) (pad : Bool) (y x : Nat), y < layer.height →
      x < layer.width →
      observedNeighborhood layer pad y x = List.replicate 9 false →
      (layer.canonical_adjacency pad).cell y x = 0 := by
  have h0 : match_rule (List.replicate 9 false) = none := by decide
  refine ⟨h0, ?_⟩
  intro layer pad y x hy hx hobs
  rw [canonical_adjacency_cell, hobs, h0]

/-- Witness: the all-zero 1x1 layer with air padding observes the all-false
neighborhood at its only cell and receives tile id 0. -/
theorem all_false_neighborhood_no_match_witness :
    match_rule (List.replicate 9 false) = none ∧
    0 < (LevelLayer.new 1 1).height ∧ 0 < (LevelLayer.new 1 1).width ∧
    observedNeighborhood (LevelLayer.new 1 1) false 0 0 =
      List.replicate 9 false ∧
    ((LevelLayer.new 1 1).canonical_adjacency false).cell 0 0 = 0 :=
  ⟨all_false_neighborhood_no_match.1, by decide, by decide, by decide,
    all_false_neighborhood_no_match.2 (LevelLayer.new 1 1) false 0 0
      (by decide) (by decide) (by decide)⟩

/-- C8: convolving a layer with the function that returns the window's center
value yields a layer equal to the original: dimensions are preserved, at each
in-bounds cell the populated window's center is the original cell's value,
and the convolved cell equals the original cell. (The closure must return a
plain value, so the optional center is unwrapped with default 0; at in-bounds
cells the center is always present.) -/
theorem convolve_center_identity (layer : LevelLayer) :
    (layer.convolve fun nb => nb.center.getD 0).width = layer.width ∧
    (layer.convolve fun nb => nb.center.getD 0).height = layer.height ∧
    ∀ y x : Nat, y < layer.height → x < layer.width →
      (populateNeighborhood layer y x).center = some (layer.cell y x) ∧
      (layer.convolve fun nb => nb.center.getD 0).cell y x = layer.cell y x := by
  refine ⟨rfl, rfl, ?_⟩
  intro y x hy hx
  have hc : (populateNeighborhood layer y x).center = some (layer.cell y x) := by
    unfold Neighborhood7x7.center
    rw [populateNeighborhood_get layer y x 0 0 (by omega) (by omega)]
    rw [if_pos ⟨by omega, by omega, by omega, by omega⟩]
    have hyy : ((y : Int) + 0).toNat = y := by omega
    have hxx : ((x : Int) + 0).toNat = x := by omega
    rw [hyy, hxx]
  refine ⟨hc, ?_⟩
  simp only [LevelLayer.convolve]
  rw [hc]
  rfl

/-- Witness: a concrete 1x1 layer holding 5. -/
theorem convolve_center_identity_witness :
    ((⟨1, 1, fun _ _ => 5⟩ : LevelLayer).convolve
      fun nb => nb.center.getD 0).width = 1 ∧
    0 < (⟨1, 1, fun _ _ => 5⟩ : LevelLayer).height ∧
    0 < (⟨1, 1, fun _ _ => 5⟩ : LevelLayer).width ∧
    (populateNeighborhood ⟨1, 1, fun _ _ => 5⟩ 0 0).center = some 5 ∧
    ((⟨1, 1, fun _ _ => 5⟩ : LevelLayer).convolve
      fun nb => nb.center.getD 0).cell 0 0 = 5 :=
  ⟨(convolve_center_identity ⟨1, 1, fun _ _ => 5⟩).1, by decide, by decide,
    ((convolve_center_identity ⟨1, 1, fun _ _ => 5⟩).2.2 0 0 (by decide)
      (by decide)).1,
    ((convolve_center_identity ⟨1, 1, fun _ _ => 5⟩).2.2 0 0 (by decide)
      (by decide)).2⟩

/-- C6: `zip_with` on two layers of differing dimensions signals the
dimension mismatch (the `assert_eq!` panic, modelled as `none`) and produces
no combined layer; on two layers of identical dimensions it produces a layer
of the same dimensions whose every in-bounds cell is `func a b` of the two
input cells. -/
theorem zip_with_dimension_check (layer other : LevelLayer)
    (func : Nat → Nat → Nat) :
    ((layer.width ≠ other.width ∨ layer.height ≠ other.height) →
      layer.zip_with other func = none) ∧
    (layer.width = other.width → layer.height = other.height →
      ∃ result : LevelLayer, layer.zip_with other func = some result ∧
        result.width = layer.width ∧ result.height = layer.height ∧
        ∀ y x : Nat, y < layer.height → x < layer.width →
          result.cell y x = func (layer.cell y x) (other.cell y x)) := by
  constructor
  · intro hne
    unfold LevelLayer.zip_with
    rw [if_neg]
    intro hc
    rcases hne with h | h
    · exact h hc.2
    · exact h hc.1
  · intro hw hh
    refine ⟨⟨layer.width, layer.height,
      fun y x => func (layer.cell y x) (other.cell y x)⟩, ?_, rfl, rfl, ?_⟩
    · unfold LevelLayer.zip_with
      rw [if_pos ⟨hh, hw⟩]
    · intro y x _ _
      rfl

/-- Witness: a 2x1 versus 3x1 pair is rejected; a pair of equal 1x1 layers is
combined cell-wise. -/
theorem zip_with_dimension_check_witness :
    ((LevelLayer.new 2 1).zip_with (LevelLayer.new 3 1)
      (fun a b => a + b) = none) ∧
    (∃ result : LevelLayer, (LevelLayer.new 1 1).zip_with (LevelLayer.new 1 1)
        (fun a b => a + b) = some result ∧
      result.width = (LevelLayer.new 1 1).width ∧
      result.height = (LevelLayer.new 1 1).height ∧
      ∀ y x : Nat, y < (LevelLayer.new 1 1).height →
        x < (LevelLayer.new 1 1).width →
        result.cell y x =
          (LevelLayer.new 1 1).cell y x + (LevelLayer.new 1 1).cell y x) :=
  ⟨(zip_with_dimension_check (LevelLayer.new 2 1) (LevelLayer.new 3 1)
      (fun a b => a + b)).1 (Or.inl (by decide)),
    (zip_with_dimension_check (LevelLayer.new 1 1) (LevelLayer.new 1 1)
      (fun a b => a + b)).2 rfl rfl⟩

/-- C9: every layer-producing operation returns a layer of exactly the
dimensions of its input layer(s): `value_where`, `convolve`,
`canonical_adjacency`, `autotile_with` unconditionally, and `zip_with`
whenever it succeeds. -/
theorem layer_ops_preserve_dimensions :
    (∀ (layer : LevelLayer) (p : Nat → Bool) (v : Nat),
      (layer.value_where p v).width = layer.width ∧
      (layer.value_where p v).height = layer.height) ∧
    (∀ (layer : LevelLayer) (f : Neighborhood7x7 → Nat),
      (layer.convolve f).width = layer.width ∧
      (layer.convolve f).height = layer.height) ∧
    (∀ (layer : LevelLayer) (pad : Bool),
      (layer.canonical_adjacency pad).width = layer.width ∧
      (layer.canonical_adjacency pad).height = layer.height) ∧
    (∀ (layer : LevelLayer) (v : Nat) (ab : AbyssPolicy),
      (layer.autotile_with v ab).width = layer.width ∧
      (layer.autotile_with v ab).height = layer.height) ∧
    (∀ (layer other : LevelLayer) (f : Nat → Nat → Nat) (result : LevelLayer),
      layer.zip_with other f = some result →
      result.width = layer.width ∧ result.height = layer.height) := by
  refine ⟨fun _ _ _ => ⟨rfl, rfl⟩, fun _ _ => ⟨rfl, rfl⟩,
    fun _ _ => ⟨rfl, rfl⟩, fun _ _ _ => ⟨rfl, rfl⟩, ?_⟩
  intro layer other f result h
  unfold LevelLayer.zip_with at h
  by_cases hc : layer.height = other.height ∧ layer.width = other.width
  · rw [if_pos hc] at h
    injection h with h2
    rw [← h2]
    exact ⟨rfl, rfl⟩
  · rw [if_neg hc] at h
    exact Option.noConfusion h

/-- Witness: the `zip_with` clause applied to two equal 2x3 layers. -/
theorem layer_ops_preserve_dimensions_witness :
    (((LevelLayer.new 2 3).zip_with (LevelLayer.new 2 3)
        (fun a b => a + b)).getD (LevelLayer.new 0 0)).width =
      (LevelLayer.new 2 3).width ∧
    (((LevelLayer.new 2 3).zip_with (LevelLayer.new 2 3)
        (fun a b => a + b)).getD (LevelLayer.new 0 0)).height =
      (LevelLayer.new 2 3).height :=
  layer_ops_preserve_dimensions.2.2.2.2 (LevelLayer.new 2 3)
    (LevelLayer.new 2 3) (fun a b => a + b) _ rfl

/-- Rust `TileSheet`, restricted to its two id/position maps (the backing
image and the tile-count pair are carried unchanged through `register` and
`allocate_tile_id` and no verified property observes them). Each `HashMap`
is modelled as an association list queried with `List.lookup`; insertion
conses in front, which gives the same `lookup` results as
`HashMap::insert`. -/
structure TileSheet where
  tile_mapping : List (Nat × (Nat × Nat))
  tile_inv_mapping : List ((Nat × Nat) × Nat)

/-- A fresh sheet with both maps empty, as built by `TileSheet::new` and
`TileSheet::new_with_tile_size`. -/
def TileSheet.empty : TileSheet :=
  ⟨[], []⟩

/-- Rust `TileSheet::register`: panics (modelled as `none`) when the tile id
is already in `tile_mapping` or the position is already in
`tile_inv_mapping`; otherwise inserts id → position into `tile_mapping`
only — the source inserts into `tile_mapping` alone and leaves
`tile_inv_mapping` untouched. -/
def TileSheet.register (ts : TileSheet) (tile_id : Nat)
    (position : Nat × Nat) : Option TileSheet :=
  if (ts.tile_mapping.lookup tile_id).isSome then none
  else if (ts.tile_inv_mapping.lookup position).isSome then none
  else some { ts with tile_mapping := (tile_id, position) :: ts.tile_mapping }

/-- Rust `TileSheet::allocate_tile_id`: returns the existing id when the
position is already mapped, else assigns the next dense id
(`tile_inv_mapping.len()`) and records it in both maps. -/
def TileSheet.allocate_tile_id (ts : TileSheet) (position : Nat × Nat) :
    Nat × TileSheet :=
  match ts.tile_inv_mapping.lookup position with
  | some tile_id => (tile_id, ts)
  | none =>
    (ts.tile_inv_mapping.length,
      { tile_mapping :=
          (ts.tile_inv_mapping.length, position) :: ts.tile_mapping,
        tile_inv_mapping :=
          (position, ts.tile_inv_mapping.length) :: ts.tile_inv_mapping })

/-- C3 fails on the code: `register` checks `tile_inv_mapping` for a
duplicate position but never inserts into it, so its duplicate-position
panic guard can never fire. Registering ids 0 and 1 at the same position
(1, 1) raises no panic and leaves the maps mutually inconsistent: both ids
map to (1, 1) in `tile_mapping` while `tile_inv_mapping` knows nothing of
(1, 1). -/
theorem register_inverse_map_bug :
    ((TileSheet.empty.register 0 (1, 1)).bind
        (fun ts => ts.register 1 (1, 1))).map
      (fun ts => (ts.tile_mapping.lookup 0, ts.tile_mapping.lookup 1,
        ts.tile_inv_mapping.lookup (1, 1))) =
    some (some (1, 1), some (1, 1), none) := by
  decide

/-- C10: `allocate_tile_id` is idempotent per position — a second call with
the same position returns the id of the first call and leaves both maps
unchanged. -/
theorem allocate_tile_id_idempotent (ts : TileSheet) (position : Nat × Nat) :
    ((ts.allocate_tile_id position).2.allocate_tile_id position).1 =
      (ts.allocate_tile_id position).1 ∧
    ((ts.allocate_tile_id position).2.allocate_tile_id
        position).2.tile_mapping =
      (ts.allocate_tile_id position).2.tile_mapping ∧
    ((ts.allocate_tile_id position).2.allocate_tile_id
        position).2.tile_inv_mapping =
      (ts.allocate_tile_id position).2.tile_inv_mapping := by
  unfold TileSheet.allocate_tile_id
  cases h : ts.tile_inv_mapping.lookup position with
  | some tid => simp [h]
  | none => simp [h, List.lookup]

/-- An RGB color `(r, g, b)`, with the `u8` components as `Nat`. -/
abbrev Color := Nat × Nat × Nat

/-- The layout image of a `LevelSpec`: dimensions and the RGB color of the
pixel at column `x` of row `y` (`layout.rows()` iterates rows top to
bottom, pixels left to right). -/
structure LayoutImage where
  width : Nat
  height : Nat
  pixel : Nat → Nat → Color

/-- Rust `LevelSpec`, restricted to the layout and the color registration
table (the tileset image and tile size only seed the `TileSheet`, whose
image fields are not modelled). -/
structure LevelSpec where
  layout : LayoutImage
  color_map : List (Color × (Nat × Nat))

/-- The failures of `LevelSpec::compile`, as structured data in place of the
formatted strings: each Rust message carries exactly the offending color
and, for the first, the pixel coordinate `(x, y)`. -/
inductive CompileErr where
  | unregisteredColor : Color → Nat → Nat → CompileErr
  | unusedColor : Color → CompileErr
  | usedUnregistered : Color → CompileErr
deriving DecidableEq

/-- Rust `HashSet::insert` on the used-colors set, modelled as a list with
contains semantics. -/
def insertColor (c : Color) (s : List Color) : List Color :=
  if s.contains c then s else c :: s

/-- The pixel coordinates `(y, x)` of a `height` by `width` layout in the
iteration order of `LevelSpec::compile` (rows outer, columns inner). -/
def coordsPairs (height width : Nat) : List (Nat × Nat) :=
  (List.range height).flatMap fun y =>
    (List.range width).map fun x => (y, x)

/-- The per-pixel loop of `LevelSpec::compile`: look the pixel's color up in
the color map (first matching entry), resolve or lazily allocate the dense
id of its tile position, write it into the layer at the pixel's coordinate,
record the color as used; an unregistered color aborts with the offending
color and coordinate `(x, y)`. -/
def compile_go (layout : LayoutImage) (cm : List (Color × (Nat × Nat))) :
    List (Nat × Nat) → TileSheet → LevelLayer → List Color →
    Except CompileErr (TileSheet × LevelLayer × List Color)
  | [], ts, layer, used => .ok (ts, layer, used)
  | (y, x) :: rest, ts, layer, used =>
    match cm.find? (fun e => e.1 == layout.pixel y x) with
    | some e =>
      compile_go layout cm rest (ts.allocate_tile_id e.2).2
        (layer.setCell y x (ts.allocate_tile_id e.2).1)
        (insertColor (layout.pixel y x) used)
    | none => .error (.unregisteredColor (layout.pixel y x) x y)

/-- Rust `LevelSpec::compile`: allocate dense ids for every registered
position in registration order, run the per-pixel loop over all pixels in
row-major order, then the two post-pass checks (every registered color was
used; every used color was registered — the second is unreachable but is in
the source). -/
def LevelSpec.compile (spec : LevelSpec) :
    Except CompileErr (TileSheet × LevelLayer) :=
  let ts0 := spec.color_map.foldl
    (fun ts e => (ts.allocate_tile_id e.2).2) TileSheet.empty
  let layer0 := LevelLayer.new spec.layout.width spec.layout.height
  match compile_go spec.layout spec.color_map
      (coordsPairs spec.layout.height spec.layout.width) ts0 layer0 [] with
  | .error e => .error e
  | .ok (ts, layer, used) =>
    match spec.color_map.find? (fun e => !(used.contains e.1)) with
    | some e => .error (.unusedColor e.1)
    | none =>
      match used.find?
          (fun c => !(spec.color_map.any (fun e => e.1 == c))) with
      | some c => .error (.usedUnregistered c)
      | none => .ok (ts, layer)

lemma allocate_lookup_self (ts : TileSheet) (p : Nat × Nat) :
    ((ts.allocate_tile_id p).2).tile_inv_mapping.lookup p =
      some (ts.allocate_tile_id p).1 := by
  unfold TileSheet.allocate_tile_id
  cases h : ts.tile_inv_mapping.lookup p with
  | some tid => simp [h]
  | none => simp [h, List.lookup]

lemma allocate_preserves_inv (ts : TileSheet) (p q : Nat × Nat) (i : Nat)
    (h : ts.tile_inv_mapping.lookup q = some i) :
    ((ts.allocate_tile_id p).2).tile_inv_mapping.lookup q = some i := by
  unfold TileSheet.allocate_tile_id
  cases hp : ts.tile_inv_mapping.lookup p with
  | some tid => simpa [hp] using h
  | none =>
    by_cases hqp : q = p
    · subst hqp
      rw [hp] at h
      exact Option.noConfusion h
    · have hne : (q == p) = false := beq_eq_false_iff_ne.mpr hqp
      simp [hp, List.lookup, hne, h]

lemma coordsPairs_mem (h w y x : Nat) :
    (y, x) ∈ coordsPairs h w ↔ y < h ∧ x < w := by
  constructor
  · intro hm
    obtain ⟨a, ha, hm2⟩ := List.mem_flatMap.mp hm
    obtain ⟨b, hb, he⟩ := List.mem_map.mp hm2
    cases he
    exact ⟨List.mem_range.mp ha, List.mem_range.mp hb⟩
  · intro hc
    exact List.mem_flatMap.mpr ⟨y, List.mem_range.mpr hc.1,
      List.mem_map.mpr ⟨x, List.mem_range.mpr hc.2, rfl⟩⟩

lemma coordsPairs_nodup (h w : Nat) : (coordsPairs h w).Nodup := by
  induction h with
  | zero => simp [coordsPairs]
  | succ n ih =>
    rw [coordsPairs, List.range_succ, List.flatMap_append]
    apply List.Nodup.append
    · exact ih
    · simp only [List.flatMap_cons, List.flatMap_nil, List.append_nil]
      refine List.Nodup.map ?_ (List.nodup_range w)
      intro x1 x2 hx
      simpa using hx
    · intro a ha1 ha2
      obtain ⟨y2, x2⟩ := a
      have hlt := (coordsPairs_mem n w y2 x2).mp ha1
      simp only [List.flatMap_cons, List.flatMap_nil, List.append_nil,
        List.mem_map] at ha2
      obtain ⟨x3, _, he⟩ := ha2
      have : n = y2 := congrArg Prod.fst he
      omega

lemma compile_go_error (layout : LayoutImage)
    (cm : List (Color × (Nat × Nat))) :
    ∀ (coords : List (Nat × Nat)) (ts : TileSheet) (layer : LevelLayer)
      (used : List Color) (e : CompileErr),
      compile_go layout cm coords ts layer used = .error e →
      ∃ y x, (y, x) ∈ coords ∧
        cm.find? (fun en => en.1 == layout.pixel y x) = none ∧
        e = .unregisteredColor (layout.pixel y x) x y := by
  intro coords
  induction coords with
  | nil =>
    intro ts layer used e h
    simp [compile_go] at h
  | cons p rest ih =>
    intro ts layer used e h
    obtain ⟨y, x⟩ := p
    simp only [compile_go] at h
    cases hf : cm.find? (fun en => en.1 == layout.pixel y x) with
    | some en =>
      rw [hf] at h
      obtain ⟨y2, x2, hmem, hfind, he⟩ := ih _ _ _ _ h
      exact ⟨y2, x2, List.mem_cons_of_mem _ hmem, hfind, he⟩
    | none =>
      rw [hf] at h
      injection h with h2
      exact ⟨y, x, List.mem_cons_self _ _, hf, h2.symm⟩

lemma compile_go_ok (layout : LayoutImage)
    (cm : List (Color × (Nat × Nat))) :
    ∀ (coords : List (Nat × Nat)) (ts : TileSheet) (layer : LevelLayer)
      (used : List Color) (ts2 : TileSheet) (layer2 : LevelLayer)
      (used2 : List Color),
      compile_go layout cm coords ts layer used = .ok (ts2, layer2, used2) →
      coords.Nodup →
      (∀ q i, ts.tile_inv_mapping.lookup q = some i →
        ts2.tile_inv_mapping.lookup q = some i) ∧
      (∀ y x, (y, x) ∈ coords →
        ∃ en, cm.find? (fun e2 => e2.1 == layout.pixel y x) = some en ∧
          ts2.tile_inv_mapping.lookup en.2 = some (layer2.cell y x)) ∧
      (∀ y x, (y, x) ∉ coords → layer2.cell y x = layer.cell y x) := by
  intro coords
  induction coords with
  | nil =>
    intro ts layer used ts2 layer2 used2 h _
    simp only [compile_go, Except.ok.injEq, Prod.mk.injEq] at h
    obtain ⟨rfl, rfl, rfl⟩ := h
    refine ⟨fun q i hq => hq, fun y x hm => absurd hm (List.not_mem_nil _),
      fun y x _ => rfl⟩
  | cons p rest ih =>
    intro ts layer used ts2 layer2 used2 h hnd
    obtain ⟨y, x⟩ := p
    have hnd1 : rest.Nodup := (List.nodup_cons.mp hnd).2
    have hnotin : (y, x) ∉ rest := (List.nodup_cons.mp hnd).1
    simp only [compile_go] at h
    cases hf : cm.find? (fun en => en.1 == layout.pixel y x) with
    | none =>
      rw [hf] at h
      exact Except.noConfusion h
    | some en =>
      rw [hf] at h
      obtain ⟨hstab, hmem, hunch⟩ := ih _ _ _ _ _ _ h hnd1
      refine ⟨?_, ?_, ?_⟩
      · intro q i hq
        exact hstab q i (allocate_preserves_inv ts en.2 q i hq)
      · intro y2 x2 hmem2
        rcases List.mem_cons.mp hmem2 with heq | hmem3
        · rw [Prod.mk.injEq] at heq
          obtain ⟨rfl, rfl⟩ := heq
          refine ⟨en, hf, ?_⟩
          have hcell : layer2.cell y2 x2 =
              (ts.allocate_tile_id en.2).1 := by
            rw [hunch y2 x2 hnotin]
            simp [LevelLayer.setCell]
          rw [hcell]
          exact hstab en.2 _ (allocate_lookup_self ts en.2)
        · exact hmem y2 x2 hmem3
      · intro y2 x2 hnmem
        have h1 : (y2, x2) ∉ rest :=
          fun hc => hnmem (List.mem_cons_of_mem _ hc)
        have h2 : ¬((y2, x2) = (y, x)) :=
          fun hc => hnmem (by rw [hc]; exact List.mem_cons_self _ _)
        have h3 : ¬(y2 = y ∧ x2 = x) :=
          fun hc => h2 (by rw [hc.1, hc.2])
        rw [hunch y2 x2 h1]
        simp [LevelLayer.setCell, h3]

/-- C7: `LevelSpec::compile` fails with an error identifying the offending
color and its pixel coordinate whenever some pixel's RGB color is absent
from the registration table; and whenever compilation succeeds (which in
particular requires every pixel's color to be registered), each output
layer cell holds exactly the dense tile id that the produced tile sheet
allocated for the registered tile-sheet position of that pixel's color. -/
theorem compile_colors (spec : LevelSpec) :
    ((∃ y x, y < spec.layout.height ∧ x < spec.layout.width ∧
        spec.color_map.find?
          (fun en => en.1 == spec.layout.pixel y x) = none) →
      ∃ y x, y < spec.layout.height ∧ x < spec.layout.width ∧
        spec.color_map.find?
          (fun en => en.1 == spec.layout.pixel y x) = none ∧
        spec.compile = .error
          (.unregisteredColor (spec.layout.pixel y x) x y)) ∧
    (∀ (ts : TileSheet) (layer : LevelLayer),
      spec.compile = .ok (ts, layer) →
      ∀ y x, y < spec.layout.height → x < spec.layout.width →
        ∃ en, spec.color_map.find?
            (fun e2 => e2.1 == spec.layout.pixel y x) = some en ∧
          en.1 = spec.layout.pixel y x ∧
          ts.tile_inv_mapping.lookup en.2 = some (layer.cell y x)) := by
  constructor
  · rintro ⟨y, x, hy, hx, hfind⟩
    cases hgo : compile_go spec.layout spec.color_map
        (coordsPairs spec.layout.height spec.layout.width)
        (spec.color_map.foldl (fun ts e => (ts.allocate_tile_id e.2).2)
          TileSheet.empty)
        (LevelLayer.new spec.layout.width spec.layout.height) [] with
    | ok triple =>
      obtain ⟨ts3, layer3, used3⟩ := triple
      have hm := ((compile_go_ok spec.layout spec.color_map _ _ _ _ _ _ _
        hgo (coordsPairs_nodup _ _)).2.1) y x
        ((coordsPairs_mem _ _ y x).mpr ⟨hy, hx⟩)
      obtain ⟨en, hfind2, _⟩ := hm
      rw [hfind] at hfind2
      exact Option.noConfusion hfind2
    | error e =>
      obtain ⟨y2, x2, hmem, hf2, he⟩ :=
        compile_go_error spec.layout spec.color_map _ _ _ _ _ hgo
      obtain ⟨hy2, hx2⟩ := (coordsPairs_mem _ _ y2 x2).mp hmem
      refine ⟨y2, x2, hy2, hx2, hf2, ?_⟩
      simp only [LevelSpec.compile, hgo, he]
  · intro ts layer hok y x hy hx
    revert hok
    cases hgo : compile_go spec.layout spec.color_map
        (coordsPairs spec.layout.height spec.layout.width)
        (spec.color_map.foldl (fun ts e => (ts.allocate_tile_id e.2).2)
          TileSheet.empty)
        (LevelLayer.new spec.layout.width spec.layout.height) [] with
    | error e =>
      intro hok
      simp [LevelSpec.compile, hgo] at hok
    | ok triple =>
      obtain ⟨ts3, layer3, used3⟩ := triple
      intro hok
      simp only [LevelSpec.compile, hgo] at hok
      cases hpc1 : spec.color_map.find? (fun e => !(used3.contains e.1)) with
      | some e => rw [hpc1] at hok; exact Except.noConfusion hok
      | none =>
        rw [hpc1] at hok
        cases hpc2 : used3.find?
            (fun c => !(spec.color_map.any (fun e => e.1 == c))) with
        | some c => rw [hpc2] at hok; exact Except.noConfusion hok
        | none =>
          rw [hpc2] at hok
          injection hok with h2
          rw [Prod.mk.injEq] at h2
          obtain ⟨rfl, rfl⟩ := h2
          have hm := ((compile_go_ok spec.layout spec.color_map _ _ _ _ _ _ _
            hgo (coordsPairs_nodup _ _)).2.1) y x
            ((coordsPairs_mem _ _ y x).mpr ⟨hy, hx⟩)
          obtain ⟨en, hfind2, hlook⟩ := hm
          have hcol := List.find?_some hfind2
          simp only [beq_iff_eq] at hcol
          exact ⟨en, hfind2, hcol, hlook⟩

/-- A 1x1 layout whose only pixel carries a registered color. -/
def specRegistered : LevelSpec :=
  ⟨⟨1, 1, fun _ _ => (1, 2, 3)⟩, [((1, 2, 3), (0, 0))]⟩

/-- A 1x1 layout whose only pixel carries an unregistered color. -/
def specUnregistered : LevelSpec :=
  ⟨⟨1, 1, fun _ _ => (9, 9, 9)⟩, [((1, 2, 3), (0, 0))]⟩

/-- The successful compilation result of `specRegistered`. -/
def compiledRegistered : TileSheet × LevelLayer :=
  (LevelSpec.compile specRegistered).toOption.getD
    (TileSheet.empty, LevelLayer.new 0 0)

/-- Witness: the unregistered 1x1 layout is rejected with its color and
coordinate; on the registered 1x1 layout the compiled cell holds the id the
sheet allocated for the color's position. -/
theorem compile_colors_witness :
    (∃ y x, y < specUnregistered.layout.height ∧
      x < specUnregistered.layout.width ∧
      specUnregistered.color_map.find?
        (fun en => en.1 == specUnregistered.layout.pixel y x) = none ∧
      specUnregistered.compile = .error
        (.unregisteredColor (specUnregistered.layout.pixel y x) x y)) ∧
    (∃ en, specRegistered.color_map.find?
        (fun e2 => e2.1 == specRegistered.layout.pixel 0 0) = some en ∧
      en.1 = specRegistered.layout.pixel 0 0 ∧
      (compiledRegistered.1).tile_inv_mapping.lookup en.2 =
        some ((compiledRegistered.2).cell 0 0)) :=
  ⟨(compile_colors specUnregistered).1 ⟨0, 0, by decide, by decide, by decide⟩,
    (compile_colors specRegistered).2 compiledRegistered.1
      compiledRegistered.2 rfl 0 0 (by decide) (by decide)⟩
